import Mathlib

/-!
Verification development for the e2ee-chat repository.

The repository is a Next.js end-to-end-encrypted chat: `src/lib/crypto.ts`
wraps the browser Web Crypto API (X25519 ECDH key agreement, AES-256-GCM
message encryption, SHA-256 public-key fingerprints), and
`src/app/room/[id]/page.tsx` contains the room orchestration: the
public-key broadcast handler, the message broadcast handler, and
`handleSendMessage`.

The development below is a shallow embedding of that code:

* Platform primitives (Web Crypto, TextEncoder/TextDecoder) are not code of
  the repository; they are modelled here.  X25519 is modelled abstractly as
  modular exponentiation (the standard Diffie-Hellman abstraction: it keeps
  the algebraic structure `x25519 a (x25519 b g) = x25519 b (x25519 a g)`
  while abstracting the Montgomery-ladder and scalar-clamping details).
  SHA-256 is an abstract parameter.  AES-GCM and the UTF-8 text codec are
  abstract structures carrying exactly the contracts the W3C Web Crypto and
  WHATWG Encoding specifications guarantee; theorems quantify over every
  lawful instance.
* Randomness (`crypto.getRandomValues`) is made explicit as an entropy
  stream argument, so every function of the source becomes a pure function
  here.
* The stateful React component becomes explicit state passing on a
  `RoomState` record; `try`/`catch` paths of the source become `Option`
  results, and a thrown-and-caught exception is the `none` branch.
-/

/-! ## The X25519 / key-agreement layer (`src/lib/crypto.ts`) -/

/-- The field prime of Curve25519, `2^255 - 19`. -/
def p25519 : Nat := 2 ^ 255 - 19

/-- The standard X25519 base point u-coordinate. -/
def curveBasePoint : Nat := 9

/-- Models the platform X25519 primitive (scalar, u-coordinate ↦
u-coordinate) abstractly as modular exponentiation, the standard
Diffie-Hellman abstraction: `x25519 k u = u ^ k mod p`.  The repository
never implements the curve itself; only the commutative-group structure of
the primitive is relevant to its code. -/
def x25519 (scalar u : Nat) : Nat := u ^ scalar % p25519

/-- Key pair type of `crypto.ts` (`KeyPair`): a public and a private half.
The private half is the scalar, the public half the curve point
`x25519 priv basePoint`. -/
structure KeyPair where
  publicKey : Nat
  privateKey : Nat
deriving DecidableEq

/-- Embeds `generateKeyPair` of `crypto.ts`: the platform draws a fresh
private scalar (made explicit as the argument) and the public key is the
X25519 public point for it. -/
def generateKeyPair (priv : Nat) : KeyPair :=
  { publicKey := x25519 priv curveBasePoint, privateKey := priv }

/-- Serializable public-key format of `crypto.ts`
(`SerializablePublicKey`): the raw key bytes as a JSON-friendly number
array. -/
structure SerializablePublicKey where
  key : List Nat
deriving DecidableEq

/-- Little-endian byte encoding with a fixed byte count; models the 32-byte
raw encoding that `crypto.subtle.exportKey('raw', ...)` produces for an
X25519 public key. -/
def natToBytesLE : Nat → Nat → List Nat
  | 0, _ => []
  | n + 1, x => (x % 256) :: natToBytesLE n (x / 256)

/-- Little-endian byte decoding (each entry wrapped to a byte, as the
`Uint8Array` constructor does). -/
def bytesToNatLE : List Nat → Nat
  | [] => 0
  | b :: rest => b % 256 + 256 * bytesToNatLE rest

/-- Embeds `exportPublicKey` of `crypto.ts`: `exportKey('raw')` of an
X25519 public key yields its 32-byte little-endian u-coordinate encoding,
wrapped as a `SerializablePublicKey`. -/
def exportPublicKey (publicKey : Nat) : SerializablePublicKey :=
  { key := natToBytesLE 32 publicKey }

/-- Embeds `importPublicKey` of `crypto.ts`: the serialized bytes are
wrapped into a `Uint8Array` and imported as a raw X25519 public key.  Per
Web Crypto, raw X25519 import requires exactly 32 bytes (otherwise it
throws, which the source catches and re-throws); RFC 7748 decodes the
u-coordinate little-endian with the top bit masked. -/
def importPublicKey (serializedKey : SerializablePublicKey) : Option Nat :=
  if serializedKey.key.length = 32 then
    some (bytesToNatLE serializedKey.key % 2 ^ 255)
  else
    none

/-- The raw X25519 shared secret as the 32 bytes RFC 7748 emits; this is
what `deriveBits` would return for the X25519 algorithm. -/
def rawEcdhSharedSecret (myPrivate theirPublic : Nat) : List Nat :=
  natToBytesLE 32 (x25519 myPrivate theirPublic)

/-- Models the `crypto.subtle.deriveKey` call of `deriveSharedKey` in
`crypto.ts` with algorithm `{name: X25519, public}` and derived-key type
`{name: AES-GCM, length: 256}`: per the W3C Web Crypto specification this
is `deriveBits` (the raw X25519 shared secret) truncated to the requested
256 bits and imported directly as the AES-GCM key — no key-derivation
function is interposed. -/
def subtleDeriveKeyAesGcm256 (myPrivate theirPublic : Nat) : List Nat :=
  (rawEcdhSharedSecret myPrivate theirPublic).take 32

/-- Embeds `deriveSharedKey` of `crypto.ts` (lines 116–141): a single
`crypto.subtle.deriveKey` call deriving the AES-256-GCM key from the ECDH
agreement. -/
def deriveSharedKey (myPrivateKey theirPublicKey : Nat) : List Nat :=
  subtleDeriveKeyAesGcm256 myPrivateKey theirPublicKey

theorem natToBytesLE_length (n x : Nat) : (natToBytesLE n x).length = n := by
  induction n generalizing x with
  | zero => rfl
  | succ n ih => simp [natToBytesLE, ih]

theorem x25519_shared_symm (a b g : Nat) :
    x25519 a (x25519 b g) = x25519 b (x25519 a g) := by
  unfold x25519
  rw [← Nat.pow_mod, ← Nat.pow_mod, ← pow_mul, ← pow_mul, Nat.mul_comm]

/-! ## The message-cipher layer (`src/lib/crypto.ts`) -/

/-- Encrypted message shape of `crypto.ts` (`EncryptedMessage`): ciphertext
bytes (with the GCM tag) and the 96-bit IV, both as number arrays. -/
structure EncryptedMessage where
  ciphertext : List Nat
  iv : List Nat
deriving DecidableEq

/-- Models the platform text codec (`TextEncoder` / `TextDecoder`): UTF-8
encoding of a string to bytes and the total decoding back (a `TextDecoder`
without `fatal` never throws).  The law `decode_encode` is the WHATWG
Encoding-standard round-trip guarantee; theorems quantify over every
lawful instance. -/
structure TextCodec where
  encode : String → List Nat
  decode : List Nat → String
  decode_encode : ∀ s, decode (encode s) = s

/-- Models the platform AES-256-GCM AEAD (`crypto.subtle.encrypt` /
`crypto.subtle.decrypt` with `tagLength: 128`): encryption of plaintext
bytes under a key and IV, and decryption returning `none` exactly when the
platform call would throw (tag mismatch / wrong key).  The law
`decrypt_encrypt` is the AEAD correctness contract; theorems quantify over
every lawful instance. -/
structure AeadModel where
  encrypt : List Nat → List Nat → List Nat → List Nat
  decrypt : List Nat → List Nat → List Nat → Option (List Nat)
  decrypt_encrypt : ∀ k iv m, decrypt k iv (encrypt k iv m) = some m

/-- Models `crypto.getRandomValues(new Uint8Array(12))`: twelve fresh bytes
drawn from the ambient entropy stream. -/
def getRandomValues12 (entropy : Nat → Nat) : List Nat :=
  (List.range 12).map fun i => entropy i % 256

/-- Embeds `encryptMessage` of `crypto.ts` (lines 150–181): generate a
fresh random 96-bit IV, UTF-8-encode the message, AES-GCM-encrypt, and
return ciphertext and IV.  The entropy stream argument makes the internal
`getRandomValues` call explicit; the source interface takes only the
message and the key. -/
def encryptMessage (C : TextCodec) (A : AeadModel) (entropy : Nat → Nat)
    (message : String) (key : List Nat) : EncryptedMessage :=
  let iv := getRandomValues12 entropy
  let messageBytes := C.encode message
  { ciphertext := A.encrypt key iv messageBytes, iv := iv }

/-- Embeds `decryptMessage` of `crypto.ts` (lines 190–217): AES-GCM-decrypt
the ciphertext under the stored IV and UTF-8-decode the result; a platform
decryption failure (tag mismatch / wrong key) is the `none` branch, which
the source turns into a thrown error. -/
def decryptMessage (C : TextCodec) (A : AeadModel) (em : EncryptedMessage)
    (key : List Nat) : Option String :=
  (A.decrypt key em.iv em.ciphertext).map C.decode

/-! ## The fingerprint (`src/lib/crypto.ts`, lines 234–249) -/

/-- JavaScript `b.toString(16)`: lowercase hexadecimal digit characters.
`Nat.toDigits 16` produces exactly this (lowercase letters, `"0"` for 0). -/
def natToHexString (n : Nat) : List Char := Nat.toDigits 16 n

/-- JavaScript `b.toString(16).padStart(2, '0')`: the hex digits of a byte,
left-padded with `'0'` to two characters. -/
def jsByteHex (b : Nat) : List Char :=
  List.replicate (2 - (natToHexString b).length) '0' ++ natToHexString b

/-- Embeds `getPublicKeyFingerprint` of `crypto.ts`: export the raw public
key, SHA-256 it (the digest primitive is the abstract `sha256` argument),
hex-encode every byte with two lowercase digits, join, take the first 16
characters and uppercase them. -/
def getPublicKeyFingerprint (sha256 : List Nat → List Nat)
    (publicKey : Nat) : String :=
  let exported := (exportPublicKey publicKey).key
  let hashArray := sha256 exported
  let hashHex := (hashArray.map jsByteHex).flatten
  String.mk ((hashHex.take 16).map Char.toUpper)

/-- Spec-side reference: the SHA-256 digest truncated to its first 8 bytes,
hex-encoded uppercase. -/
def fingerprintOfDigest (digest : List Nat) : String :=
  String.mk (((digest.take 8).map jsByteHex).flatten.map Char.toUpper)

/-! ## The room orchestration (`src/app/room/[id]/page.tsx`) -/

/-- Decrypted message shape of `lib/types.ts` (`Message`). -/
structure Message where
  id : String
  senderId : String
  senderNickname : String
  content : String
  timestamp : Nat
  isOwn : Bool
deriving DecidableEq

/-- One `{recipientId, encrypted}` entry of the `encryptedMessages` array
built in `handleSendMessage`. -/
structure EncryptedMessageEntry where
  recipientId : String
  encrypted : EncryptedMessage
deriving DecidableEq

/-- Payload of a `message` broadcast event.  `encryptedMessages` is the new
per-recipient format; `encrypted` the legacy single-ciphertext format; a
missing field is `none` (JavaScript truthiness on a present empty array is
`some []`, which is truthy, matching the source's `if` chain). -/
structure MessagePayload where
  messageId : String
  senderId : String
  senderNickname : String
  encryptedMessages : Option (List EncryptedMessageEntry)
  encrypted : Option EncryptedMessage
  timestamp : Nat
deriving DecidableEq

/-- Payload of a `public-key` broadcast event (`lib/types.ts`,
`PublicKeyBroadcast`). -/
structure PublicKeyBroadcast where
  userId : String
  nickname : String
  publicKey : SerializablePublicKey
  timestamp : Nat
deriving DecidableEq

/-- `Map.get` of the JavaScript shared-key `Map` (first entry with the
key). -/
def mapGet {α : Type} : List (String × α) → String → Option α
  | [], _ => none
  | (k₁, v₁) :: rest, k => if k₁ = k then some v₁ else mapGet rest k

/-- `Map.set` of the JavaScript shared-key `Map`: replace the value in
place when the key is present, append a new entry otherwise. -/
def mapSet {α : Type} : List (String × α) → String → α → List (String × α)
  | [], k, v => [(k, v)]
  | (k₁, v₁) :: rest, k, v =>
      if k₁ = k then (k, v) :: rest else (k₁, v₁) :: mapSet rest k v

/-- The mutable state of the `ChatRoom` component that the claims are
about: the local identity, the key pair and exported public key captured at
join, the `sharedKeysRef` map `peerId ↦ AES key`, and the displayed message
list. -/
structure RoomState where
  userId : String
  nickname : String
  keyPair : Option KeyPair
  publicKey : SerializablePublicKey
  sharedKeys : List (String × List Nat)
  messages : List Message
deriving DecidableEq

/-- Embeds the join-time setup of `handleJoinRoom` (generate a key pair,
export the public key, start with an empty shared-key table and no
messages) together with the initial `public-key` broadcast sent on
subscription: the announcement carries the exported public key that the
handler closures capture. -/
def joinRoom (priv : Nat) (uid nick : String) (now : Nat) :
    RoomState × PublicKeyBroadcast :=
  let keys := generateKeyPair priv
  let publicKey := exportPublicKey keys.publicKey
  ({ userId := uid, nickname := nick, keyPair := some keys,
     publicKey := publicKey, sharedKeys := [], messages := [] },
   { userId := uid, nickname := nick, publicKey := publicKey,
     timestamp := now })

/-- Embeds the `public-key` broadcast handler (page.tsx lines 176–226):
skip own announcements; remember whether a key for the sender already
existed; import the announced key and derive the shared key (a thrown key
importing error or missing key pair is caught, state unchanged); store
the derived key under the peer id; and reply with the own public key
captured at join exactly when this was first contact. -/
def handlePublicKeyBroadcast (st : RoomState) (payload : PublicKeyBroadcast)
    (now : Nat) : RoomState × Option PublicKeyBroadcast :=
  if payload.userId = st.userId then (st, none)
  else
    match importPublicKey payload.publicKey with
    | none => (st, none)
    | some theirPublicKey =>
      match st.keyPair with
      | none => (st, none)
      | some kp =>
        let existingKey := mapGet st.sharedKeys payload.userId
        let sharedKey := deriveSharedKey kp.privateKey theirPublicKey
        let newState :=
          { st with sharedKeys := mapSet st.sharedKeys payload.userId sharedKey }
        match existingKey with
        | none =>
            (newState,
             some { userId := st.userId, nickname := st.nickname,
                    publicKey := st.publicKey, timestamp := now })
        | some _ => (newState, none)

/-- Embeds the `message` broadcast handler (page.tsx lines 229–303): own
messages are skipped; in the new format the entry addressed to the local
user is looked up, then the sender's shared key, then decryption — any
missing piece or a caught decryption error leaves the state unchanged; in
the legacy single-`encrypted` format there is no recipient scan at all, the
sender's key is used directly.  A successfully decrypted message is
appended to the display list. -/
def handleMessageBroadcast (C : TextCodec) (A : AeadModel) (st : RoomState)
    (payload : MessagePayload) : RoomState :=
  if payload.senderId = st.userId then st
  else
    match payload.encryptedMessages with
    | some entries =>
      match entries.find? (fun e => e.recipientId == st.userId) with
      | none => st
      | some mine =>
        match mapGet st.sharedKeys payload.senderId with
        | none => st
        | some sharedKey =>
          match decryptMessage C A mine.encrypted sharedKey with
          | none => st
          | some content =>
              { st with messages := st.messages ++
                  [{ id := payload.messageId, senderId := payload.senderId,
                     senderNickname := payload.senderNickname,
                     content := content, timestamp := payload.timestamp,
                     isOwn := false }] }
    | none =>
      match payload.encrypted with
      | none => st
      | some enc =>
        match mapGet st.sharedKeys payload.senderId with
        | none => st
        | some sharedKey =>
          match decryptMessage C A enc sharedKey with
          | none => st
          | some content =>
              { st with messages := st.messages ++
                  [{ id := payload.messageId, senderId := payload.senderId,
                     senderNickname := payload.senderNickname,
                     content := content, timestamp := payload.timestamp,
                     isOwn := false }] }

/-- Models JavaScript `String.prototype.trim`: strip whitespace from both
ends of the string (an executable model; the source calls the platform
`trim`). -/
def jsTrim (s : String) : String :=
  String.mk
    (((s.data.dropWhile Char.isWhitespace).reverse.dropWhile
        Char.isWhitespace).reverse)

/-- Embeds `handleSendMessage` (page.tsx lines 341–401): guard on empty
trimmed input and on a send already in flight; always append the own
plaintext message to the display first; with an empty shared-key table
return without producing envelopes or transmitting; otherwise encrypt the
plaintext once per table entry (each encryption drawing its own fresh IV
from `ivEntropy i`) and transmit all envelopes in one payload under the one
`messageId`. -/
def handleSendMessage (C : TextCodec) (A : AeadModel)
    (ivEntropy : Nat → Nat → Nat) (messageId : String) (now : Nat)
    (st : RoomState) (messageInput : String) (isSending : Bool) :
    RoomState × Option MessagePayload :=
  if jsTrim messageInput = "" ∨ isSending = true then (st, none)
  else
    let messageContent := jsTrim messageInput
    let recipientKeys := st.sharedKeys
    let ownMessage : Message :=
      { id := messageId, senderId := st.userId,
        senderNickname := st.nickname, content := messageContent,
        timestamp := now, isOwn := true }
    let stShown := { st with messages := st.messages ++ [ownMessage] }
    if recipientKeys.length = 0 then (stShown, none)
    else
      let encryptedMessages := recipientKeys.enum.map fun p =>
        { recipientId := p.2.1,
          encrypted := encryptMessage C A (ivEntropy p.1) messageContent p.2.2 :
          EncryptedMessageEntry }
      (stShown,
       some { messageId := messageId, senderId := st.userId,
              senderNickname := st.nickname,
              encryptedMessages := some encryptedMessages,
              encrypted := none, timestamp := now })

/-- Well-formedness of the shared-key table: at most one entry per peer id,
and never an entry under the local participant's own id. -/
def SharedKeysWF (st : RoomState) : Prop :=
  (st.sharedKeys.map Prod.fst).Nodup ∧
  ∀ k ∈ st.sharedKeys.map Prod.fst, k ≠ st.userId

instance (st : RoomState) : Decidable (SharedKeysWF st) := by
  unfold SharedKeysWF; infer_instance

/-! ## Helper lemmas -/

theorem mapGet_eq_none_iff {α : Type} (m : List (String × α)) (k : String) :
    mapGet m k = none ↔ k ∉ m.map Prod.fst := by
  induction m with
  | nil => simp [mapGet]
  | cons hd tl ih =>
    obtain ⟨k₁, v₁⟩ := hd
    by_cases h : k₁ = k
    · subst h; simp [mapGet]
    · simp [mapGet, h, ih, Ne.symm h]

theorem keys_mapSet {α : Type} (m : List (String × α)) (k : String) (v : α) :
    (mapSet m k v).map Prod.fst =
      if k ∈ m.map Prod.fst then m.map Prod.fst
      else m.map Prod.fst ++ [k] := by
  induction m with
  | nil => simp [mapSet]
  | cons hd tl ih =>
    obtain ⟨k₁, v₁⟩ := hd
    by_cases h : k₁ = k
    · subst h; simp [mapSet]
    · by_cases hmem : k ∈ tl.map Prod.fst <;>
        simp [mapSet, h, Ne.symm h, hmem, ih]

theorem nodup_keys_mapSet {α : Type} (m : List (String × α)) (k : String)
    (v : α) (h : (m.map Prod.fst).Nodup) :
    ((mapSet m k v).map Prod.fst).Nodup := by
  rw [keys_mapSet]
  by_cases hmem : k ∈ m.map Prod.fst
  · simpa [hmem] using h
  · simp only [hmem, if_false]
    have hdisj : (m.map Prod.fst).Disjoint [k] := by
      intro a ha hak
      simp only [List.mem_singleton] at hak
      subst hak; exact hmem ha
    rw [List.nodup_append]
    exact ⟨h, List.nodup_singleton k, hdisj⟩

theorem mem_keys_mapSet {α : Type} (m : List (String × α)) (k x : String)
    (v : α) (hx : x ∈ (mapSet m k v).map Prod.fst) :
    x ∈ m.map Prod.fst ∨ x = k := by
  rw [keys_mapSet] at hx
  by_cases hmem : k ∈ m.map Prod.fst
  · simp only [hmem, if_true] at hx; exact Or.inl hx
  · simp only [hmem, if_false, List.mem_append, List.mem_singleton] at hx
    exact hx

theorem mapSet_mapSet {α : Type} (m : List (String × α)) (k : String) (v : α) :
    mapSet (mapSet m k v) k v = mapSet m k v := by
  induction m with
  | nil => simp [mapSet]
  | cons hd tl ih =>
    obtain ⟨k₁, v₁⟩ := hd
    by_cases h : k₁ = k
    · subst h; simp [mapSet]
    · simp [mapSet, h, ih]

theorem handleMessageBroadcast_frame (C : TextCodec) (A : AeadModel)
    (st : RoomState) (p : MessagePayload) :
    (handleMessageBroadcast C A st p).sharedKeys = st.sharedKeys ∧
    (handleMessageBroadcast C A st p).userId = st.userId ∧
    (handleMessageBroadcast C A st p).publicKey = st.publicKey ∧
    (handleMessageBroadcast C A st p).keyPair = st.keyPair := by
  unfold handleMessageBroadcast
  repeat' split
  all_goals simp

theorem handleSendMessage_frame (C : TextCodec) (A : AeadModel)
    (ivEntropy : Nat → Nat → Nat) (messageId : String) (now : Nat)
    (st : RoomState) (input : String) (isSending : Bool) :
    (handleSendMessage C A ivEntropy messageId now st input isSending).1.sharedKeys
        = st.sharedKeys ∧
    (handleSendMessage C A ivEntropy messageId now st input isSending).1.userId
        = st.userId ∧
    (handleSendMessage C A ivEntropy messageId now st input isSending).1.publicKey
        = st.publicKey := by
  unfold handleSendMessage
  by_cases h1 : jsTrim input = "" ∨ isSending = true
  · simp [h1]
  · by_cases h2 : st.sharedKeys = [] <;> simp [h1, h2]

theorem handlePublicKeyBroadcast_frame (st : RoomState)
    (p : PublicKeyBroadcast) (now : Nat) :
    (handlePublicKeyBroadcast st p now).1.userId = st.userId ∧
    (handlePublicKeyBroadcast st p now).1.publicKey = st.publicKey ∧
    (handlePublicKeyBroadcast st p now).1.keyPair = st.keyPair ∧
    (handlePublicKeyBroadcast st p now).1.messages = st.messages := by
  unfold handlePublicKeyBroadcast
  by_cases h1 : p.userId = st.userId
  · simp [h1]
  · simp only [h1, if_false]
    cases himp : importPublicKey p.publicKey with
    | none => simp
    | some q =>
      cases hkp : st.keyPair with
      | none => simp [hkp]
      | some kp =>
        cases hget : mapGet st.sharedKeys p.userId with
        | none => simp [hkp, hget]
        | some v => simp [hkp, hget]

set_option maxRecDepth 4096 in
theorem jsByteHex_length : ∀ b, b < 256 → (jsByteHex b).length = 2 := by
  decide

theorem flatten_map_take_two {β : Type} (f : β → List Char) :
    ∀ (l : List β) (k : Nat), (∀ b ∈ l, (f b).length = 2) →
      ((l.map f).flatten.take (2 * k)) = ((l.take k).map f).flatten := by
  intro l
  induction l with
  | nil => intro k _; simp
  | cons b tl ih =>
    intro k hf
    cases k with
    | zero => simp
    | succ k =>
      have h2 : (f b).length = 2 := hf b (List.mem_cons_self b tl)
      have harith : 2 * (k + 1) = (f b).length + 2 * k := by omega
      simp only [List.map_cons, List.flatten_cons, List.take_succ_cons, harith,
        List.take_append]
      rw [ih k fun x hx => hf x (List.mem_cons_of_mem b hx)]

theorem flatten_map_length_two {β : Type} (f : β → List Char) :
    ∀ (l : List β), (∀ b ∈ l, (f b).length = 2) →
      ((l.map f).flatten).length = 2 * l.length := by
  intro l
  induction l with
  | nil => intro _; simp
  | cons b tl ih =>
    intro hf
    have h2 : (f b).length = 2 := hf b (List.mem_cons_self b tl)
    simp only [List.map_cons, List.flatten_cons, List.length_append, h2,
      List.length_cons, ih fun x hx => hf x (List.mem_cons_of_mem b hx)]
    omega

/-! ## Concrete platform instances used by the evaluation corollaries -/

/-- A concrete lawful text codec standing in for the platform UTF-8 codec
in closed evaluations: encodes a string as its character code points and
decodes by rebuilding the characters. -/
def modelCodec : TextCodec where
  encode s := s.data.map Char.toNat
  decode l := String.mk (l.map Char.ofNat)
  decode_encode s := by
    cases s with
    | mk data =>
      simp only [List.map_map]
      have hid : ∀ c ∈ data, (Char.ofNat ∘ Char.toNat) c = id c :=
        fun c _ => Char.ofNat_toNat c
      rw [List.map_congr_left hid, List.map_id]

/-- A concrete lawful AEAD standing in for the platform AES-GCM in closed
evaluations: appends a one-byte tag, and decryption strips a correct tag
and rejects anything else. -/
def modelAead : AeadModel where
  encrypt _ _ m := m ++ [0]
  decrypt _ _ c := if c.getLast? = some 0 then some c.dropLast else none
  decrypt_encrypt k iv m := by
    simp [List.getLast?_concat, List.dropLast_concat]

/-! ## Claim theorems -/

/-- C1: for every plaintext string P and every symmetric key K — over every
lawful platform text codec and AEAD instance and every entropy draw —
decrypting the result of encrypting P under K with the same K succeeds and
returns P. -/
theorem claim1_encrypt_decrypt_roundtrip (C : TextCodec) (A : AeadModel)
    (entropy : Nat → Nat) (P : String) (K : List Nat) :
    decryptMessage C A (encryptMessage C A entropy P K) K = some P := by
  unfold decryptMessage encryptMessage
  simp [A.decrypt_encrypt, C.decode_encode]

theorem claim1_witness :
    decryptMessage modelCodec modelAead
      (encryptMessage modelCodec modelAead (fun _ => 0) "hi" [1, 2]) [1, 2]
      = some "hi" :=
  claim1_encrypt_decrypt_roundtrip modelCodec modelAead (fun _ => 0) "hi" [1, 2]

/-- C2: `encryptMessage` draws its nonce internally from the ambient
entropy (the interface takes only plaintext and key; the IV equals the
fresh 12-byte draw and does not depend on plaintext or key), the nonce is
12 bytes of byte values, and two calls whose 12-byte random draws differ
produce distinct nonces. -/
theorem claim2_nonce_freshness (C : TextCodec) (A : AeadModel)
    (e₁ e₂ : Nat → Nat) (m₁ m₂ : String) (k₁ k₂ : List Nat)
    (hne : getRandomValues12 e₁ ≠ getRandomValues12 e₂) :
    (encryptMessage C A e₁ m₁ k₁).iv = getRandomValues12 e₁ ∧
    (encryptMessage C A e₁ m₁ k₁).iv.length = 12 ∧
    (∀ b ∈ (encryptMessage C A e₁ m₁ k₁).iv, b < 256) ∧
    (encryptMessage C A e₁ m₁ k₁).iv = (encryptMessage C A e₁ m₂ k₂).iv ∧
    (encryptMessage C A e₁ m₁ k₁).iv ≠ (encryptMessage C A e₂ m₂ k₂).iv := by
  refine ⟨rfl, by simp [encryptMessage, getRandomValues12], ?_, rfl, ?_⟩
  · intro b hb
    simp only [encryptMessage, getRandomValues12, List.mem_map,
      List.mem_range] at hb
    obtain ⟨i, _, hi⟩ := hb
    omega
  · simpa [encryptMessage] using hne

theorem claim2_witness :
    getRandomValues12 (fun _ => 0) ≠ getRandomValues12 (fun _ => 1) ∧
    (encryptMessage modelCodec modelAead (fun _ => 0) "a" []).iv ≠
      (encryptMessage modelCodec modelAead (fun _ => 1) "b" [3]).iv :=
  ⟨by decide,
   (claim2_nonce_freshness modelCodec modelAead (fun _ => 0) (fun _ => 1)
      "a" "b" [] [3] (by decide)).2.2.2.2⟩

/-- C3 counterexample: at the concrete inputs private scalar 2 and peer
public point 9, the AES-256-GCM key produced by `deriveSharedKey` is
byte-for-byte the raw ECDH shared secret, refuting the claim that a
key-derivation step separates the raw ECDH output from the cipher key. -/
theorem claim3_counterexample :
    deriveSharedKey 2 9 = rawEcdhSharedSecret 2 9 := by decide

/-- C3 amended: `deriveSharedKey` runs ECDH and uses the raw X25519 shared
secret directly (Web Crypto `deriveKey` X25519 → AES-GCM-256: the 256
derived bits are the raw shared secret) as the symmetric key; no separate
key-derivation step is applied. -/
theorem claim3_amended (myPrivate theirPublic : Nat) :
    deriveSharedKey myPrivate theirPublic =
      rawEcdhSharedSecret myPrivate theirPublic := by
  unfold deriveSharedKey subtleDeriveKeyAesGcm256
  rw [List.take_of_length_le]
  rw [rawEcdhSharedSecret, natToBytesLE_length]

/-- C8: ECDH symmetry — for all key pairs A and B generated from private
scalars, deriving from A's private key and B's public key yields the same
symmetric key as deriving from B's private key and A's public key. -/
theorem claim8_ecdh_symmetry (a b : Nat) :
    deriveSharedKey (generateKeyPair a).privateKey
        (generateKeyPair b).publicKey =
      deriveSharedKey (generateKeyPair b).privateKey
        (generateKeyPair a).publicKey := by
  unfold deriveSharedKey subtleDeriveKeyAesGcm256 rawEcdhSharedSecret
    generateKeyPair
  rw [x25519_shared_symm]

/-- C9: for every public key (and every model of the SHA-256 primitive
that returns a 32-byte digest), the fingerprint equals the digest of the
raw public-key encoding truncated to its first 8 bytes and hex-encoded
uppercase, it is 16 characters long, and it is deterministic. -/
theorem claim9_fingerprint (sha256 : List Nat → List Nat) (pub : Nat)
    (h32 : (sha256 (exportPublicKey pub).key).length = 32)
    (hb : ∀ b ∈ sha256 (exportPublicKey pub).key, b < 256) :
    getPublicKeyFingerprint sha256 pub =
      fingerprintOfDigest (sha256 (exportPublicKey pub).key) ∧
    (getPublicKeyFingerprint sha256 pub).length = 16 ∧
    getPublicKeyFingerprint sha256 pub = getPublicKeyFingerprint sha256 pub := by
  have hf : ∀ b ∈ sha256 (exportPublicKey pub).key, (jsByteHex b).length = 2 :=
    fun b hbm => jsByteHex_length b (hb b hbm)
  have ht := flatten_map_take_two jsByteHex (sha256 (exportPublicKey pub).key) 8 hf
  norm_num at ht
  have hlen : (((sha256 (exportPublicKey pub).key).map jsByteHex).flatten).length
      = 64 := by
    rw [flatten_map_length_two jsByteHex _ hf, h32]
  refine ⟨?_, ?_, rfl⟩
  · simp only [getPublicKeyFingerprint, fingerprintOfDigest]
    rw [ht, List.map_take]
  · simp only [getPublicKeyFingerprint]
    show ((((sha256 (exportPublicKey pub).key).map jsByteHex).flatten.take 16).map
      Char.toUpper).length = 16
    rw [List.length_map, List.length_take, hlen]
    omega

theorem claim9_witness :
    (List.range 32).length = 32 ∧
    (getPublicKeyFingerprint (fun _ => List.range 32) 0).length = 16 :=
  ⟨by decide,
   (claim9_fingerprint (fun _ => List.range 32) 0 (by decide) (by decide)).2.1⟩

/-- Concrete state for the closed evaluation corollaries: local user `"a"`
with an established shared key for peer `"b"`. -/
def wState : RoomState :=
  { userId := "a", nickname := "n",
    keyPair := some { publicKey := 9, privateKey := 1 },
    publicKey := { key := natToBytesLE 32 9 },
    sharedKeys := [("b", [7])], messages := [] }

/-- Concrete state with an empty shared-key table. -/
def wStateEmpty : RoomState :=
  { userId := "a", nickname := "n",
    keyPair := some { publicKey := 9, privateKey := 1 },
    publicKey := { key := natToBytesLE 32 9 },
    sharedKeys := [], messages := [] }

/-- A ciphertext that `modelAead` rejects (wrong tag byte). -/
def wEncBad : EncryptedMessage := { ciphertext := [1], iv := [0] }

/-- A ciphertext that `modelAead` accepts and that decodes to `"a"`. -/
def wEncOk : EncryptedMessage := { ciphertext := [97, 0], iv := [0] }

/-- C4: the message broadcast handler never touches the shared-key table,
and in every drop case — own message, no ciphertext addressed to the local
user, shared key not yet established, or decryption failure — it returns
the state unchanged (the handler is a total function: the caught exception
paths are the unchanged-state branches). -/
theorem claim4_receive_drop_cases (C : TextCodec) (A : AeadModel)
    (st : RoomState) (p : MessagePayload) :
    (handleMessageBroadcast C A st p).sharedKeys = st.sharedKeys ∧
    (p.senderId = st.userId → handleMessageBroadcast C A st p = st) ∧
    (∀ es, p.senderId ≠ st.userId → p.encryptedMessages = some es →
      es.find? (fun e => e.recipientId == st.userId) = none →
      handleMessageBroadcast C A st p = st) ∧
    (∀ es e, p.senderId ≠ st.userId → p.encryptedMessages = some es →
      es.find? (fun e => e.recipientId == st.userId) = some e →
      mapGet st.sharedKeys p.senderId = none →
      handleMessageBroadcast C A st p = st) ∧
    (∀ es e k, p.senderId ≠ st.userId → p.encryptedMessages = some es →
      es.find? (fun e => e.recipientId == st.userId) = some e →
      mapGet st.sharedKeys p.senderId = some k →
      decryptMessage C A e.encrypted k = none →
      handleMessageBroadcast C A st p = st) := by
  refine ⟨(handleMessageBroadcast_frame C A st p).1, ?_, ?_, ?_, ?_⟩
  · intro h
    simp [handleMessageBroadcast, h]
  · intro es hne hes hfind
    simp [handleMessageBroadcast, hne, hes, hfind]
  · intro es e hne hes hfind hget
    simp [handleMessageBroadcast, hne, hes, hfind, hget]
  · intro es e k hne hes hfind hget hdec
    simp [handleMessageBroadcast, hne, hes, hfind, hget, hdec]

theorem claim4_witness :
    (handleMessageBroadcast modelCodec modelAead wState
      { messageId := "m1", senderId := "a", senderNickname := "n",
        encryptedMessages := none, encrypted := none, timestamp := 0 }
      = wState) ∧
    (handleMessageBroadcast modelCodec modelAead wState
      { messageId := "m2", senderId := "b", senderNickname := "p",
        encryptedMessages := some [], encrypted := none, timestamp := 0 }
      = wState) ∧
    (handleMessageBroadcast modelCodec modelAead wState
      { messageId := "m3", senderId := "c", senderNickname := "q",
        encryptedMessages := some [{ recipientId := "a", encrypted := wEncOk }],
        encrypted := none, timestamp := 0 }
      = wState) ∧
    (handleMessageBroadcast modelCodec modelAead wState
      { messageId := "m4", senderId := "b", senderNickname := "p",
        encryptedMessages := some [{ recipientId := "a", encrypted := wEncBad }],
        encrypted := none, timestamp := 0 }
      = wState) :=
  ⟨(claim4_receive_drop_cases modelCodec modelAead wState _).2.1 rfl,
   (claim4_receive_drop_cases modelCodec modelAead wState _).2.2.1 []
     (by decide) rfl (by decide),
   (claim4_receive_drop_cases modelCodec modelAead wState _).2.2.2.1
     [{ recipientId := "a", encrypted := wEncOk }]
     { recipientId := "a", encrypted := wEncOk }
     (by decide) rfl (by decide) (by decide),
   (claim4_receive_drop_cases modelCodec modelAead wState _).2.2.2.2
     [{ recipientId := "a", encrypted := wEncBad }]
     { recipientId := "a", encrypted := wEncBad } [7]
     (by decide) rfl (by decide) (by decide) (by decide)⟩

/-- C10: in the legacy single-`encrypted` format (no `encryptedMessages`
array), the handler performs no recipient scan: whenever a shared key for
the sender is present and decryption succeeds, the decrypted message is
appended to the display regardless of any addressing. -/
theorem claim10_legacy_format (C : TextCodec) (A : AeadModel)
    (st : RoomState) (p : MessagePayload) (enc : EncryptedMessage)
    (k : List Nat) (content : String)
    (hsender : p.senderId ≠ st.userId)
    (hfmt : p.encryptedMessages = none)
    (henc : p.encrypted = some enc)
    (hkey : mapGet st.sharedKeys p.senderId = some k)
    (hdec : decryptMessage C A enc k = some content) :
    handleMessageBroadcast C A st p =
      { st with messages := st.messages ++
          [{ id := p.messageId, senderId := p.senderId,
             senderNickname := p.senderNickname, content := content,
             timestamp := p.timestamp, isOwn := false }] } := by
  simp [handleMessageBroadcast, hsender, hfmt, henc, hkey, hdec]

theorem claim10_witness :
    handleMessageBroadcast modelCodec modelAead wState
      { messageId := "m5", senderId := "b", senderNickname := "p",
        encryptedMessages := none, encrypted := some wEncOk, timestamp := 3 }
      =
      { wState with messages := wState.messages ++
          [{ id := "m5", senderId := "b", senderNickname := "p",
             content := "a", timestamp := 3, isOwn := false }] } :=
  claim10_legacy_format modelCodec modelAead wState _ wEncOk [7] "a"
    (by decide) rfl rfl (by decide) (by decide)

/-- C5: for every send with non-empty trimmed input and no send in flight,
the sender's own plaintext (the trimmed input, never round-tripped through
encryption) is appended to the local display; with an empty peer-key table
nothing is transmitted; with a non-empty table exactly one envelope per
table entry is produced, each encrypted under that entry's shared key with
its own fresh IV draw, and all envelopes travel in one payload under the
single message id. -/
theorem claim5_send_fanout (C : TextCodec) (A : AeadModel)
    (ivEntropy : Nat → Nat → Nat) (mid : String) (now : Nat)
    (st : RoomState) (input : String) (hinput : jsTrim input ≠ "") :
    ((handleSendMessage C A ivEntropy mid now st input false).1.messages =
        st.messages ++
          [{ id := mid, senderId := st.userId, senderNickname := st.nickname,
             content := jsTrim input, timestamp := now, isOwn := true }]) ∧
    (st.sharedKeys = [] →
        (handleSendMessage C A ivEntropy mid now st input false).2 = none) ∧
    (st.sharedKeys ≠ [] →
        ∃ pl, (handleSendMessage C A ivEntropy mid now st input false).2
            = some pl ∧
          pl.messageId = mid ∧ pl.senderId = st.userId ∧
          pl.senderNickname = st.nickname ∧ pl.encrypted = none ∧
          ∃ env, pl.encryptedMessages = some env ∧
            env.length = st.sharedKeys.length ∧
            ∀ i : Nat, env[i]? = (st.sharedKeys[i]?).map fun rk =>
              { recipientId := rk.1,
                encrypted :=
                  encryptMessage C A (ivEntropy i) (jsTrim input) rk.2 }) := by
  by_cases hk : st.sharedKeys = []
  · refine ⟨?_, fun _ => ?_, fun hne => absurd hk hne⟩ <;>
      simp [handleSendMessage, hinput, hk]
  · have hlen : ¬st.sharedKeys.length = 0 := by
      simpa [List.length_eq_zero] using hk
    refine ⟨by simp [handleSendMessage, hinput, hlen],
      fun heq => absurd heq hk, fun _ => ?_⟩
    refine ⟨{ messageId := mid, senderId := st.userId,
              senderNickname := st.nickname,
              encryptedMessages := some (st.sharedKeys.enum.map fun pr =>
                ({ recipientId := pr.2.1,
                   encrypted := encryptMessage C A (ivEntropy pr.1)
                     (jsTrim input) pr.2.2 } : EncryptedMessageEntry)),
              encrypted := none, timestamp := now },
            by simp [handleSendMessage, hinput, hlen], rfl, rfl, rfl, rfl,
            st.sharedKeys.enum.map fun pr =>
              ({ recipientId := pr.2.1,
                 encrypted := encryptMessage C A (ivEntropy pr.1)
                   (jsTrim input) pr.2.2 } : EncryptedMessageEntry),
            rfl, by simp [List.enum_length], ?_⟩
    intro i
    simp only [List.getElem?_map, List.getElem?_enum]
    cases st.sharedKeys[i]? <;> rfl

theorem claim5_witness :
    (jsTrim "hi " ≠ "") ∧
    (handleSendMessage modelCodec modelAead (fun _ _ => 0) "m" 5 wStateEmpty
        "hi " false).2 = none ∧
    (handleSendMessage modelCodec modelAead (fun _ _ => 0) "m" 5 wStateEmpty
        "hi " false).1.messages = wStateEmpty.messages ++
          [{ id := "m", senderId := "a", senderNickname := "n",
             content := jsTrim "hi ", timestamp := 5, isOwn := true }] ∧
    ∃ pl, (handleSendMessage modelCodec modelAead (fun _ _ => 0) "m" 5 wState
        "hi " false).2 = some pl ∧ pl.messageId = "m" := by
  refine ⟨by decide, ?_, ?_, ?_⟩
  · exact (claim5_send_fanout modelCodec modelAead (fun _ _ => 0) "m" 5
      wStateEmpty "hi " (by decide)).2.1 rfl
  · exact (claim5_send_fanout modelCodec modelAead (fun _ _ => 0) "m" 5
      wStateEmpty "hi " (by decide)).1
  · obtain ⟨pl, hpl, hmid, -⟩ := (claim5_send_fanout modelCodec modelAead
      (fun _ _ => 0) "m" 5 wState "hi " (by decide)).2.2 (by decide)
    exact ⟨pl, hpl, hmid⟩

/-- Concrete announcement from peer `"b"` carrying a well-formed 32-byte
public key, used by the closed evaluation corollaries. -/
def wAnnounce : PublicKeyBroadcast :=
  { userId := "b", nickname := "p",
    publicKey := { key := List.replicate 32 0 }, timestamp := 0 }

/-- C6: for every announcement from another peer that imports and derives
successfully, the handler replies with the local participant's own public
key exactly when no shared-key entry for that peer existed before (first
contact); the reply carries the public key captured at join, which the
handlers never change and which `joinRoom` makes identical to the key of
the join announcement. -/
theorem claim6_reply_once (st : RoomState) (p : PublicKeyBroadcast)
    (now : Nat) (q : Nat) (kp : KeyPair)
    (hself : p.userId ≠ st.userId)
    (himp : importPublicKey p.publicKey = some q)
    (hkp : st.keyPair = some kp) :
    ((handlePublicKeyBroadcast st p now).2.isSome ↔
        mapGet st.sharedKeys p.userId = none) ∧
    (∀ rep, (handlePublicKeyBroadcast st p now).2 = some rep →
        rep.publicKey = st.publicKey ∧ rep.userId = st.userId ∧
        rep.nickname = st.nickname) ∧
    ((handlePublicKeyBroadcast st p now).1.publicKey = st.publicKey) ∧
    (∀ priv uid nick ts, (joinRoom priv uid nick ts).1.publicKey =
        (joinRoom priv uid nick ts).2.publicKey) ∧
    (∀ C A st2 p2,
        (handleMessageBroadcast C A st2 p2).publicKey = st2.publicKey) ∧
    (∀ C A ivE mid t2 st2 inp b,
        (handleSendMessage C A ivE mid t2 st2 inp b).1.publicKey
          = st2.publicKey) := by
  refine ⟨?_, ?_, (handlePublicKeyBroadcast_frame st p now).2.1,
    fun priv uid nick ts => rfl,
    fun C A st2 p2 => (handleMessageBroadcast_frame C A st2 p2).2.2.1,
    fun C A ivE mid t2 st2 inp b =>
      (handleSendMessage_frame C A ivE mid t2 st2 inp b).2.2⟩
  · cases hget : mapGet st.sharedKeys p.userId with
    | none => simp [handlePublicKeyBroadcast, hself, himp, hkp, hget]
    | some v => simp [handlePublicKeyBroadcast, hself, himp, hkp, hget]
  · intro rep hrep
    cases hget : mapGet st.sharedKeys p.userId with
    | none =>
      simp only [handlePublicKeyBroadcast, hself, if_neg, himp, hkp, hget,
        if_false] at hrep
      obtain ⟨rfl⟩ := hrep.symm
      exact ⟨rfl, rfl, rfl⟩
    | some v =>
      simp [handlePublicKeyBroadcast, hself, himp, hkp, hget] at hrep

theorem claim6_witness :
    ("b" ≠ "a") ∧ importPublicKey wAnnounce.publicKey = some 0 ∧
    (handlePublicKeyBroadcast wStateEmpty wAnnounce 0).2.isSome ∧
    (handlePublicKeyBroadcast wState wAnnounce 0).2.isSome = false := by
  refine ⟨by decide, by decide, ?_, ?_⟩
  · exact (claim6_reply_once wStateEmpty wAnnounce 0 0
        { publicKey := 9, privateKey := 1 } (by decide) (by decide) rfl).1.mpr
      (by decide)
  · have h := (claim6_reply_once wState wAnnounce 0 0
        { publicKey := 9, privateKey := 1 } (by decide) (by decide) rfl).1
    rw [Bool.eq_false_iff]
    intro hsome
    have := h.mp hsome
    simp [wState, wAnnounce, mapGet] at this

/-- C7: every operation preserves well-formedness of the shared-key table
(at most one entry per peer id and never one under the local id); joining
starts well-formed; and re-processing the same announcement overwrites the
entry with the identical deterministically re-derived key instead of
adding a duplicate, leaving the table exactly as after the first
processing. -/
theorem claim7_key_table_invariant (st : RoomState) (p : PublicKeyBroadcast)
    (now now2 : Nat) (C : TextCodec) (A : AeadModel) (p2 : MessagePayload)
    (ivE : Nat → Nat → Nat) (mid : String) (t2 : Nat) (inp : String)
    (b : Bool) (priv : Nat) (uid nick : String) (ts : Nat) :
    (SharedKeysWF st → SharedKeysWF (handlePublicKeyBroadcast st p now).1) ∧
    (SharedKeysWF st → SharedKeysWF (handleMessageBroadcast C A st p2)) ∧
    (SharedKeysWF st →
        SharedKeysWF (handleSendMessage C A ivE mid t2 st inp b).1) ∧
    SharedKeysWF (joinRoom priv uid nick ts).1 ∧
    ((handlePublicKeyBroadcast (handlePublicKeyBroadcast st p now).1 p
        now2).1.sharedKeys = (handlePublicKeyBroadcast st p now).1.sharedKeys)
    := by
  refine ⟨?_, ?_, ?_, ?_, ?_⟩
  · intro h
    by_cases hself : p.userId = st.userId
    · simpa [handlePublicKeyBroadcast, hself] using h
    · cases himp : importPublicKey p.publicKey with
      | none => simpa [handlePublicKeyBroadcast, hself, himp] using h
      | some q =>
        cases hkp : st.keyPair with
        | none => simpa [handlePublicKeyBroadcast, hself, himp, hkp] using h
        | some kp =>
          obtain ⟨hnodup, hown⟩ := h
          have hmain : ∀ r : RoomState, r.sharedKeys =
              mapSet st.sharedKeys p.userId
                (deriveSharedKey kp.privateKey q) → r.userId = st.userId →
              SharedKeysWF r := by
            intro r hr hu
            refine ⟨?_, ?_⟩
            · rw [hr]; exact nodup_keys_mapSet _ _ _ hnodup
            · intro k hk
              rw [hr] at hk
              rcases mem_keys_mapSet _ _ _ _ hk with hmem | rfl
              · rw [hu]; exact hown k hmem
              · rw [hu]; exact hself
          cases hget : mapGet st.sharedKeys p.userId with
          | none =>
            exact hmain _ (by simp [handlePublicKeyBroadcast, hself, himp,
              hkp, hget]) (handlePublicKeyBroadcast_frame st p now).1
          | some v =>
            exact hmain _ (by simp [handlePublicKeyBroadcast, hself, himp,
              hkp, hget]) (handlePublicKeyBroadcast_frame st p now).1
  · intro h
    unfold SharedKeysWF at h ⊢
    rw [(handleMessageBroadcast_frame C A st p2).1,
      (handleMessageBroadcast_frame C A st p2).2.1]
    exact h
  · intro h
    unfold SharedKeysWF at h ⊢
    rw [(handleSendMessage_frame C A ivE mid t2 st inp b).1,
      (handleSendMessage_frame C A ivE mid t2 st inp b).2.1]
    exact h
  · exact ⟨by simp [joinRoom], by simp [joinRoom]⟩
  · by_cases hself : p.userId = st.userId
    · simp [handlePublicKeyBroadcast, hself]
    · cases himp : importPublicKey p.publicKey with
      | none => simp [handlePublicKeyBroadcast, hself, himp]
      | some q =>
        cases hkp : st.keyPair with
        | none => simp [handlePublicKeyBroadcast, hself, himp, hkp]
        | some kp =>
          have h1 : (handlePublicKeyBroadcast st p now).1.sharedKeys =
              mapSet st.sharedKeys p.userId
                (deriveSharedKey kp.privateKey q) := by
            cases hget : mapGet st.sharedKeys p.userId <;>
              simp [handlePublicKeyBroadcast, hself, himp, hkp, hget]
          have hu := (handlePublicKeyBroadcast_frame st p now).1
          have hkp2 : (handlePublicKeyBroadcast st p now).1.keyPair = some kp := by
            rw [(handlePublicKeyBroadcast_frame st p now).2.2.1]; exact hkp
          generalize hgen : (handlePublicKeyBroadcast st p now).1 = st1
          rw [hgen] at h1 hu hkp2
          have hself2 : ¬p.userId = st1.userId := by
            rw [hu]; exact hself
          have h2 : (handlePublicKeyBroadcast st1 p now2).1.sharedKeys =
              mapSet st1.sharedKeys p.userId
                (deriveSharedKey kp.privateKey q) := by
            cases hget2 : mapGet st1.sharedKeys p.userId <;>
              simp [handlePublicKeyBroadcast, hself2, himp, hkp2, hget2]
          rw [h2, h1, mapSet_mapSet]

/-- An inert message payload used only to instantiate binders in closed
evaluation corollaries. -/
def wInertPayload : MessagePayload :=
  { messageId := "m", senderId := "b", senderNickname := "p",
    encryptedMessages := none, encrypted := none, timestamp := 0 }

theorem claim7_witness :
    SharedKeysWF wStateEmpty ∧
    SharedKeysWF (handlePublicKeyBroadcast wStateEmpty wAnnounce 0).1 ∧
    (handlePublicKeyBroadcast (handlePublicKeyBroadcast wStateEmpty wAnnounce
        0).1 wAnnounce 1).1.sharedKeys =
      (handlePublicKeyBroadcast wStateEmpty wAnnounce 0).1.sharedKeys := by
  refine ⟨by decide, ?_, ?_⟩
  · exact (claim7_key_table_invariant wStateEmpty wAnnounce 0 1 modelCodec
      modelAead wInertPayload (fun _ _ => 0) "m" 0 "x" false 1 "a" "n" 0).1
      (by decide)
  · exact (claim7_key_table_invariant wStateEmpty wAnnounce 0 1 modelCodec
      modelAead wInertPayload (fun _ _ => 0) "m" 0 "x" false 1 "a" "n"
      0).2.2.2.2
